import Mathlib

set_option maxRecDepth 100000
set_option maxHeartbeats 2000000

/-!
Verification of the catalog record extraction engine.

Shallow embedding of the text-processing core of the repository:
strings are modelled as `List Char`; each Python function is translated
into an executable Lean definition, and the spec's claims are settled as
theorems about those definitions.

Sources embedded here:
- `10_extract_1996.py`: `normalize_extracted_text`, the OCR fallback
  selection in `main`, `COURSE_HEADER_RE`, `parse_courses_from_pages`,
  and the deduplication loop in `main`.
- `11_extract_2024.py`: `clean_text`, `peel_embedded_fields`.
- `04_clean.py`: `clean_ws`, `parse_credits`.
-/

namespace Catalog

/-! ## Python character classes

`isPySpace` models the character class matched by `str.strip()` /
`str.rstrip()` with no argument and by the regex class `\s` on `str`
patterns (Unicode whitespace). `isLineSep` models the line boundaries
recognised by `str.splitlines()`. `isWordChar` models the regex class
`\w` (here restricted to ASCII, which covers the catalog corpus), used
for the word-boundary assertion `\b`. -/

def isPySpace (c : Char) : Bool :=
  c = ' ' || c = '\t' || c = '\n' || c = '\r' || c = '\x0b' || c = '\x0c' ||
  c = '\x1c' || c = '\x1d' || c = '\x1e' || c = '\x1f' || c = '\x85' ||
  c = '\xa0' || c = '\u1680' ||
  ('\u2000' ≤ c && c ≤ '\u200a') ||
  c = '\u2028' || c = '\u2029' || c = '\u202f' || c = '\u205f' || c = '\u3000'

def isLineSep (c : Char) : Bool :=
  c = '\n' || c = '\r' || c = '\x0b' || c = '\x0c' ||
  c = '\x1c' || c = '\x1d' || c = '\x1e' || c = '\x85' ||
  c = '\u2028' || c = '\u2029'

def isWordChar (c : Char) : Bool :=
  c.isAlpha || c.isDigit || c = '_'

/-- The word-boundary assertion `\b` between a previous character (none at
the start of the string) and the character ahead (none at the end). -/
def wordBoundary (prev : Option Char) (ahead : Option Char) : Bool :=
  let pw := match prev with | none => false | some c => isWordChar c
  let aw := match ahead with | none => false | some c => isWordChar c
  pw != aw

def headChar : List Char → Option Char
  | [] => none
  | c :: _ => some c

/-! ## Python string primitives -/

/-- `str.lstrip()`: drop leading whitespace. -/
def pyLstrip (l : List Char) : List Char :=
  l.dropWhile isPySpace

/-- `str.rstrip()`: drop trailing whitespace. -/
def pyRstrip : List Char → List Char
  | [] => []
  | c :: r =>
    match pyRstrip r with
    | [] => if isPySpace c then [] else [c]
    | r' => c :: r'

/-- `str.strip()`: drop whitespace on both ends. -/
def pyStrip (l : List Char) : List Char :=
  pyLstrip (pyRstrip l)

/-- Prepend a character to the first line of a line list (for building
`splitlines` results right to left). -/
def consHead (c : Char) : List (List Char) → List (List Char)
  | [] => [[c]]
  | l :: ls => (c :: l) :: ls

/-- `str.splitlines()`: split at line separators, treating `"\r\n"` as a
single separator; a trailing separator produces no final empty line. -/
def pySplitlines : List Char → List (List Char)
  | [] => []
  | '\r' :: '\n' :: r => [] :: pySplitlines r
  | c :: r =>
    if isLineSep c then [] :: pySplitlines r
    else consHead c (pySplitlines r)

/-- `"\n".join(lines)`. -/
def joinNL : List (List Char) → List Char
  | [] => []
  | [l] => l
  | l :: ls => l ++ '\n' :: joinNL ls

/-- `" ".join(lines)`. -/
def joinSpace : List (List Char) → List Char
  | [] => []
  | [l] => l
  | l :: ls => l ++ ' ' :: joinSpace ls

/-- `str.lower()` (character-wise). -/
def toLowerStr (l : List Char) : List Char :=
  l.map Char.toLower

/-- Case-insensitive prefix test: does `l` start with the (lower-case)
word `w`?  Returns the remainder after the prefix when it does. -/
def ciDropWord : List Char → List Char → Option (List Char)
  | [], l => some l
  | _ :: _, [] => none
  | w :: ws, c :: cs => if c.toLower = w then ciDropWord ws cs else none

/-- `takeWhile`/`dropWhile` pair (the span of a maximal run). -/
def pySpan (p : Char → Bool) : List Char → List Char × List Char
  | [] => ([], [])
  | c :: r =>
    if p c then
      let s := pySpan p r
      (c :: s.1, s.2)
    else ([], c :: r)

/-! ## `clean_text` (11_extract_2024.py) and `clean_ws` (04_clean.py)

Both sources define the same operation:
`re.sub(r"\s+", " ", s).strip()` — collapse every maximal whitespace run
to a single space, then strip. -/

/-- One pass of `re.sub(r"\s+", " ", s)`: the flag records whether we are
inside a whitespace run whose single replacement space was already
emitted. -/
def collapseWsGo : Bool → List Char → List Char
  | _, [] => []
  | afterSpace, c :: r =>
    if isPySpace c then
      if afterSpace then collapseWsGo true r
      else ' ' :: collapseWsGo true r
    else c :: collapseWsGo false r

def collapseWs (l : List Char) : List Char :=
  collapseWsGo false l

def clean_text (l : List Char) : List Char :=
  pyStrip (collapseWs l)

def clean_ws (l : List Char) : List Char :=
  clean_text l

/-! ## `normalize_extracted_text` (10_extract_1996.py) -/

/-- `s.replace("\r\n", "\n").replace("\r", "\n")`. -/
def replaceCR : List Char → List Char
  | [] => []
  | '\r' :: '\n' :: r => '\n' :: replaceCR r
  | '\r' :: r => '\n' :: replaceCR r
  | c :: r => c :: replaceCR r

/-- `re.sub(r"([A-Za-z])-\n([A-Za-z])", r"\1\2", s)`: join hyphenated
line breaks; matches are found left to right and do not overlap. -/
def hyphenJoin : List Char → List Char
  | a :: '-' :: '\n' :: b :: r =>
    if a.isAlpha && b.isAlpha then a :: b :: hyphenJoin r
    else a :: hyphenJoin ('-' :: '\n' :: b :: r)
  | c :: r => c :: hyphenJoin r
  | [] => []

/-- Emit a pending run of `n` newlines, applying `re.sub(r"\n{3,}", "\n\n")`
to that maximal run. -/
def emitNl (n : Nat) : List Char :=
  if 3 ≤ n then ['\n', '\n'] else List.replicate n '\n'

def collapseNLGo : List Char → Nat → List Char
  | [], pending => emitNl pending
  | c :: r, pending =>
    if c = '\n' then collapseNLGo r (pending + 1)
    else emitNl pending ++ c :: collapseNLGo r 0

/-- `re.sub(r"\n{3,}", "\n\n", s)`: every maximal run of three or more
newlines becomes exactly two. -/
def collapseNL (l : List Char) : List Char :=
  collapseNLGo l 0

/-- `normalize_extracted_text` from `10_extract_1996.py`. -/
def normalize_extracted_text (s : List Char) : List Char :=
  if s = [] then []
  else
    pyStrip (joinNL ((pySplitlines (collapseNL (hyphenJoin (replaceCR s)))).map pyRstrip))

example : normalize_extracted_text "a- \nb".data = "a-\nb".data := by decide
example : normalize_extracted_text "a-\nb".data = "ab".data := by decide
example : normalize_extracted_text "x\n\n\ny".data = "x\n\ny".data := by decide
example : normalize_extracted_text "a\x0b\n\nb".data = "a\n\n\nb".data := by decide

/-! ## OCR fallback selection (10_extract_1996.py, `main`)

Per page, `main` normalizes the extracted text, counts the characters
left by `re.sub(r"\s+", "", norm)`, and keeps the normalized text when
the count reaches `MIN_TEXT_CHARS_BEFORE_OCR`; otherwise it requests OCR
for that page index and substitutes the re-normalized OCR output, or —
when the OCR stack is absent (`pytesseract is None or convert_from_path
is None`, modelled as `ocr = none`) — keeps the sparse normalized text,
only emitting a warning. -/

def MIN_TEXT_CHARS_BEFORE_OCR : Nat := 200

/-- `len(re.sub(r"\s+", "", norm))`: the number of non-whitespace
characters. -/
def countNonWs (l : List Char) : Nat :=
  (l.filter (fun c => !isPySpace c)).length

/-- The per-page body of the OCR fallback loop in `main`. -/
def ocrFallbackPage (ocr : Option (Nat → List Char)) (idx : Nat) (txt : List Char) :
    List Char :=
  let norm := normalize_extracted_text txt
  if MIN_TEXT_CHARS_BEFORE_OCR ≤ countNonWs norm then norm
  else
    match ocr with
    | none => norm
    | some f => normalize_extracted_text (f idx)

/-- The whole fallback loop: `for idx, txt in enumerate(page_texts)`. -/
def ocrFallbackPages (ocr : Option (Nat → List Char)) (page_texts : List (List Char)) :
    List (List Char) :=
  page_texts.enum.map (fun it => ocrFallbackPage ocr it.1 it.2)

/-! ## `parse_credits` (04_clean.py) -/

/-- `s.replace("–", "-")`: normalize en-dash to hyphen. -/
def replaceEnDash (l : List Char) : List Char :=
  l.map (fun c => if c = '–' then '-' else c)

/-- One token of `re.findall(r"\d+(?:\.\d+)?", s)` starting at a digit:
the maximal digit run, plus a fractional part when a dot directly
followed by a digit comes next.  Returns the token and the remainder. -/
def grabNum (l : List Char) : List Char × List Char :=
  let d := pySpan Char.isDigit l
  match d.2 with
  | '.' :: r =>
    match pySpan Char.isDigit r with
    | ([], _) => (d.1, d.2)
    | (f, r') => (d.1 ++ '.' :: f, r')
  | _ => (d.1, d.2)

def findNumsF : Nat → List Char → List (List Char)
  | 0, _ => []
  | _, [] => []
  | fuel + 1, c :: r =>
    if c.isDigit then
      let g := grabNum (c :: r)
      g.1 :: findNumsF fuel g.2
    else findNumsF fuel r

/-- `re.findall(r"\d+(?:\.\d+)?", s)`: all embedded numeric tokens, left
to right, non-overlapping. -/
def findNums (l : List Char) : List (List Char) :=
  findNumsF (l.length + 1) l

/-- Value of one numeric token (digits, optionally a dot and more
digits), as an exact rational standing in for Python's `float(...)`. -/
def digitsToNat (l : List Char) : Nat :=
  l.foldl (fun a c => a * 10 + (c.toNat - 48)) 0

def tokToRat (tok : List Char) : ℚ :=
  let intPart := digitsToNat (pySpan Char.isDigit tok).1
  match (pySpan Char.isDigit tok).2 with
  | '.' :: f => (intPart : ℚ) + (digitsToNat f : ℚ) / (10 ^ f.length : ℚ)
  | _ => (intPart : ℚ)

/-- `parse_credits` from `04_clean.py`.  `none` stands for Python's
`None` argument; the result components are `None`-or-float. -/
def parse_credits : Option (List Char) → Option ℚ × Option ℚ
  | none => (none, none)
  | some raw =>
    if raw = [] then (none, none)
    else
      let s := replaceEnDash (clean_ws raw)
      match findNums s with
      | [] => (none, none)
      | [n0] => (some (tokToRat n0), some (tokToRat n0))
      | n0 :: n1 :: _ =>
        if s.contains '-' then
          let lo := tokToRat n0
          let hi := tokToRat n1
          (some (min lo hi), some (max lo hi))
        else (some (tokToRat n0), some (tokToRat n0))

example : parse_credits (some "1-4 Hours".data) = (some 1, some 4) := by decide
example : parse_credits (some "4 SH".data) = (some 4, some 4) := by decide
example : parse_credits none = (none, none) := by decide
example : parse_credits (some "4-2 x".data) = (some 2, some 4) := by decide
example : parse_credits (some "3- Hours".data) = (some 3, some 3) := by decide
example : parse_credits (some "x".data) = (none, none) := by decide

/-! ## Scanned-era header grammar (10_extract_1996.py)

`COURSE_HEADER_RE = ^\s*(\d{1,2}\.\d{3})\s+([A-Z0-9].*?)\s*$`, applied
with `re.match` to one line.  Backtracking makes the match
deterministic: the digit run before the dot must have length 1 or 2,
exactly three digits must follow the dot, at least one whitespace
character must separate identifier and title, the title starts with an
ASCII upper-case letter or digit, and — because `.` does not match a
newline while `\s*$` must absorb the rest — the title capture is the
right-trimmed remainder, which must contain no newline. -/

def courseHeaderMatch (line : List Char) : Option (List Char × List Char) :=
  let r1 := (pySpan isPySpace line).2
  let d := pySpan Char.isDigit r1
  if d.1.length = 0 || 2 < d.1.length then none
  else
    match d.2 with
    | '.' :: d1 :: d2 :: d3 :: r4 =>
      if d1.isDigit && d2.isDigit && d3.isDigit then
        let w := pySpan isPySpace r4
        if w.1 = [] then none
        else
          match w.2 with
          | t :: ts =>
            if t.isUpper || t.isDigit then
              let title := pyRstrip (t :: ts)
              if title.contains '\n' then none
              else some (d.1 ++ '.' :: d1 :: d2 :: d3 :: [], title)
            else none
          | [] => none
      else none
    | _ => none

example :
    courseHeaderMatch "1.125 Architecting and Engineering Software Systems".data =
      some ("1.125".data, "Architecting and Engineering Software Systems".data) := by decide
example : courseHeaderMatch "  12.345 X  ".data = some ("12.345".data, "X".data) := by decide
example : courseHeaderMatch "123.456 X".data = none := by decide
example : courseHeaderMatch "1.2345 X".data = none := by decide
example : courseHeaderMatch "1.125 a".data = none := by decide
example : courseHeaderMatch "Presents principles of software".data = none := by decide

/-! ## Segmentation state machine (10_extract_1996.py, `parse_courses_from_pages`) -/

structure MITCourse1996 where
  subject_number : List Char
  title : List Char
  description : List Char
  raw_block : List Char
  source_pdf : List Char
  start_page : Nat
deriving DecidableEq, Repr

/-- The mutable accumulator of `parse_courses_from_pages`
(`current_num`, `current_title`, `current_lines`,
`current_start_page`). -/
structure SegState where
  currentNum : Option (List Char)
  currentTitle : Option (List Char)
  currentLines : List (List Char)
  currentStartPage : Option Nat
deriving DecidableEq, Repr

def initSeg : SegState :=
  { currentNum := none, currentTitle := none, currentLines := [], currentStartPage := none }

/-- The administrative-line filter in `flush`:
`re.match(r"^(Prereq|Units|Lecture|Lab|Recitation|Instructors?|Textbook|Coreq|Same subject as)\b", l, re.I)`.
The optional `s?` of `Instructors?` is expanded into two alternatives. -/
def adminWords : List (List Char) :=
  ["prereq".data, "units".data, "lecture".data, "lab".data, "recitation".data,
   "instructors".data, "instructor".data, "textbook".data, "coreq".data,
   "same subject as".data]

def isAdminLine (l : List Char) : Bool :=
  adminWords.any (fun w =>
    match ciDropWord w l with
    | some rest =>
      match headChar rest with
      | some c => !isWordChar c
      | none => true
    | none => false)

example : isAdminLine "Prereq: 1.00".data = true := by decide
example : isAdminLine "Unitsx".data = false := by decide
example : isAdminLine "Same subject as 6.036".data = true := by decide
example : isAdminLine "Laboratory".data = false := by decide
example : isAdminLine "Instructor: B".data = true := by decide

/-- The `flush()` closure: a block with a missing or empty identifier or
title is discarded; otherwise the body lines are joined, stripped,
filtered of blank, administrative and `≤ 2`-character lines, and the
record is built. -/
def flushState (src : List Char) (st : SegState) : Option MITCourse1996 :=
  match st.currentNum, st.currentTitle with
  | some num, some titl =>
    if num = [] || titl = [] then none
    else
      let block := pyStrip (joinNL st.currentLines)
      let descLines := (pySplitlines block).filterMap (fun ln =>
        let l := pyStrip ln
        if l = [] then none
        else if isAdminLine l then none
        else if l.length ≤ 2 then none
        else some l)
      some
        { subject_number := num
          title := pyStrip titl
          description := pyStrip (joinSpace descLines)
          raw_block := block
          source_pdf := src
          start_page :=
            match st.currentStartPage with
            | some p => if p = 0 then 1 else p
            | none => 1 }
  | _, _ => none

/-- One iteration of the line loop: a header line flushes the open block
and seeds a fresh one from the captured identifier, title and the
current page index; other lines are appended only when a block is open
(`current_num is not None`) and are dropped otherwise. -/
def stepLine (src : List Char) (st : SegState) (lp : List Char × Nat) :
    List MITCourse1996 × SegState :=
  match courseHeaderMatch lp.1 with
  | some g =>
    ((flushState src st).toList,
     { currentNum := some g.1, currentTitle := some g.2, currentLines := [],
       currentStartPage := some lp.2 })
  | none =>
    if st.currentNum.isSome then
      ([], { st with currentLines := st.currentLines ++ [lp.1] })
    else ([], st)

def runLines (src : List Char) : SegState → List (List Char × Nat) →
    List MITCourse1996 × SegState
  | st, [] => ([], st)
  | st, lp :: rest =>
    let s1 := stepLine src st lp
    let r := runLines src s1.2 rest
    (s1.1 ++ r.1, r.2)

/-- Run the machine over a stream of `(line, page index)` pairs and
flush the final open block. -/
def parseStream (src : List Char) (lps : List (List Char × Nat)) : List MITCourse1996 :=
  let r := runLines src initSeg lps
  r.1 ++ (flushState src r.2).toList

/-- The line stream of a document: pages are enumerated from 1,
normalized, empty pages are skipped, and the rest contribute their
lines tagged with the page index. -/
def lineStream (page_texts : List (List Char)) : List (List Char × Nat) :=
  (List.enumFrom 1 page_texts).flatMap (fun pt =>
    let text := normalize_extracted_text pt.2
    if text = [] then [] else (pySplitlines text).map (fun l => (l, pt.1)))

def parse_courses_from_pages (page_texts : List (List Char)) (source_pdf : List Char) :
    List MITCourse1996 :=
  parseStream source_pdf (lineStream page_texts)

example :
    parse_courses_from_pages
      ["1.125 Architecting Software Systems\nPresents principles of software\nPrereq: 1.00\n12 units".data]
      "01.pdf".data =
    [{ subject_number := "1.125".data
       title := "Architecting Software Systems".data
       description := "Presents principles of software 12 units".data
       raw_block := "Presents principles of software\nPrereq: 1.00\n12 units".data
       source_pdf := "01.pdf".data
       start_page := 1 }] := by decide

/-! ## Deduplication (10_extract_1996.py and 11_extract_2024.py, `main`)

`dedup` is a dict keyed by `(identifier, title.strip().lower())`; the
first record with a key is kept and later ones are dropped, and
`dict.values()` preserves first-insertion order. -/

def dedupFirstBy {α κ : Type} [DecidableEq κ] (key : α → κ) :
    List κ → List α → List α
  | _, [] => []
  | seen, r :: rest =>
    if key r ∈ seen then dedupFirstBy key seen rest
    else r :: dedupFirstBy key (key r :: seen) rest

def dedupKey1996 (c : MITCourse1996) : List Char × List Char :=
  (c.subject_number, toLowerStr (pyStrip c.title))

def dedupCourses (rs : List MITCourse1996) : List MITCourse1996 :=
  dedupFirstBy dedupKey1996 [] rs

/-! ## `peel_embedded_fields` (11_extract_2024.py)

An ordered, subtractive regex pipeline over `s := clean_text(text)`.
Each `re.search` is embedded as a left-to-right scan over start
positions with the (deterministic) backtracking of the Python pattern
spelled out; a successful match returns the text before the match, the
captured value, and the text after the match, and the working string is
rebuilt as `clean_text(before ++ " " ++ after)`.  Because the working
string is always a `clean_text` output it contains no newline, so `.`
(any char but newline) never blocks and `$` matches only at the end. -/

/-- Trailing `\b` after a word character: the next character must be
missing or a non-word character. -/
def bAfterOk (r : List Char) : Bool :=
  match headChar r with
  | some c => !isWordChar c
  | none => true

/-- `\d+\s*-\s*\d+\s*-\s*\d+\s*units` (case-insensitive), anchored at
the head of `l`; returns the remainder after `units`. -/
def matchTripleUnits (l : List Char) : Option (List Char) :=
  let d1 := pySpan Char.isDigit l
  if d1.1 = [] then none
  else
    match (pySpan isPySpace d1.2).2 with
    | '-' :: r2 =>
      let d2 := pySpan Char.isDigit (pySpan isPySpace r2).2
      if d2.1 = [] then none
      else
        match (pySpan isPySpace d2.2).2 with
        | '-' :: r3 =>
          let d3 := pySpan Char.isDigit (pySpan isPySpace r3).2
          if d3.1 = [] then none
          else ciDropWord "units".data (pySpan isPySpace d3.2).2
        | _ => none
    | _ => none

/-- `\d+\s*units` (case-insensitive), anchored at the head of `l`. -/
def matchSingleUnits (l : List Char) : Option (List Char) :=
  let d1 := pySpan Char.isDigit l
  if d1.1 = [] then none
  else ciDropWord "units".data (pySpan isPySpace d1.2).2

/-- Either units alternative followed by the trailing `\b`;  Python
tries the triple form first and falls back to the single form. -/
def unitsAhead (rest : List Char) : Bool :=
  (match matchTripleUnits rest with
   | some r => bAfterOk r
   | none => false) ||
  (match matchSingleUnits rest with
   | some r => bAfterOk r
   | none => false)

/-- `[UG]\s*\(` (case-insensitive) at the head of `rest`. -/
def laUGBody (rest : List Char) : Bool :=
  match rest with
  | c :: r =>
    (c.toLower = 'u' || c.toLower = 'g') &&
    (match (pySpan isPySpace r).2 with
     | '(' :: _ => true
     | _ => false)
  | [] => false

/-- The lookahead of the Prereq pattern:
`(?=(\b[UG]\s*\(|\b\d+\s*-\s*\d+\s*-\s*\d+\s*units\b|\b\d+\s*units\b|$))`
with `prev` the character just before the lookahead position. -/
def lookaheadStep1 (prev : Char) (rest : List Char) : Bool :=
  (rest = [] || rest = ['\n']) ||
  (wordBoundary (some prev) (headChar rest) && (laUGBody rest || unitsAhead rest))

/-- The lazy group `(.+?)`: consume one character at a time (never a
newline), checking the lookahead after each; returns the group and the
remainder at the first success. -/
def lazyGrpStep1 (accRev : List Char) : List Char → Option (List Char × List Char)
  | [] => none
  | c :: r =>
    if c = '\n' then none
    else if lookaheadStep1 c r then some ((c :: accRev).reverse, r)
    else lazyGrpStep1 (c :: accRev) r

/-- Backtracking of the greedy `\s*` after `Prereq:`: the maximal
whitespace run is tried first; on failure its characters are moved one
at a time into the start of the lazy group. -/
def tryGroupStart : List Char → List Char → Option (List Char × List Char)
  | wsRev, grpStart =>
    match lazyGrpStep1 [] grpStart with
    | some res => some res
    | none =>
      match wsRev with
      | [] => none
      | w :: ws' => tryGroupStart ws' (w :: grpStart)

/-- Scan for the leftmost match of
`\bPrereq:\s*(.+?)(?=(...))` (case-insensitive); returns
`(text before the match, group 1, text after the match)`. -/
def searchPrereqGo (prev : Option Char) (accRev : List Char) :
    List Char → Option (List Char × List Char × List Char)
  | [] => none
  | c :: r =>
    let attempt :=
      if wordBoundary prev (some c) then
        match ciDropWord "prereq:".data (c :: r) with
        | some afterColon =>
          let ws := pySpan isPySpace afterColon
          tryGroupStart ws.1.reverse ws.2
        | none => none
      else none
    match attempt with
    | some gs => some (accRev.reverse, gs.1, gs.2)
    | none => searchPrereqGo (some c) (c :: accRev) r

def peelStep1 (s : List Char) : List Char × Option (List Char) :=
  match searchPrereqGo none [] s with
  | some pgs => (clean_text (pgs.1 ++ ' ' :: pgs.2.2), some (clean_text pgs.2.1))
  | none => (s, none)

/-- Scan for the leftmost match of `\b([UG])\s*\(([^)]+)\)\b`
(case-sensitive); returns `(before, letter, inner, after)`.  The final
`\b` sits after `)`, so the next character must be a word character. -/
def searchLevelGo (prev : Option Char) (accRev : List Char) :
    List Char → Option (List Char × Char × List Char × List Char)
  | [] => none
  | c :: r =>
    let attempt : Option (List Char × List Char) :=
      if wordBoundary prev (some c) && (c = 'U' || c = 'G') then
        match (pySpan isPySpace r).2 with
        | '(' :: r2 =>
          let sp := pySpan (fun x => x != ')') r2
          match sp.1, sp.2 with
          | [], _ => none
          | inner, ')' :: r3 =>
            match headChar r3 with
            | some nc => if isWordChar nc then some (inner, r3) else none
            | none => none
          | _, _ => none
        | _ => none
      else none
    match attempt with
    | some is => some (accRev.reverse, c, is.1, is.2)
    | none => searchLevelGo (some c) (c :: accRev) r

def peelStep2 (s : List Char) : List Char × Option (List Char) :=
  match searchLevelGo none [] s with
  | some q =>
    (clean_text (q.1 ++ ' ' :: q.2.2.2),
     some (clean_text (q.2.1 :: ' ' :: '(' :: (q.2.2.1 ++ [')']))))
  | none => (s, none)

/-- Scan for the leftmost match of
`\b(\d+\s*-\s*\d+\s*-\s*\d+\s*units|\d+\s*units)\b` (case-insensitive);
returns `(before, group 1, after)`. -/
def searchUnitsGo (prev : Option Char) (accRev : List Char) :
    List Char → Option (List Char × List Char × List Char)
  | [] => none
  | c :: r =>
    let l := c :: r
    let attempt : Option (List Char) :=
      if wordBoundary prev (some c) then
        match matchTripleUnits l with
        | some rest =>
          if bAfterOk rest then some rest
          else
            match matchSingleUnits l with
            | some rest2 => if bAfterOk rest2 then some rest2 else none
            | none => none
        | none =>
          match matchSingleUnits l with
          | some rest2 => if bAfterOk rest2 then some rest2 else none
          | none => none
      else none
    match attempt with
    | some rest => some (accRev.reverse, l.take (l.length - rest.length), rest)
    | none => searchUnitsGo (some c) (c :: accRev) r

def peelStep3 (s : List Char) : List Char × Option (List Char) :=
  match searchUnitsGo none [] s with
  | some pgs => (clean_text (pgs.1 ++ ' ' :: pgs.2.2), some (clean_text pgs.2.1))
  | none => (s, none)

def narrativeVerbs : List (List Char) :=
  ["presents".data, "introduces".data, "provides".data, "covers".data,
   "explores".data, "develops".data, "focuses".data, "examines".data,
   "studies".data, "designs".data, "addresses".data]

/-- The lookahead
`(?=\b(Presents|Introduces|Provides|Covers|Explores|Develops|Focuses|Examines|Studies|Designs|Addresses)\b)`
(case-insensitive). -/
def verbAhead (prev : Option Char) (rest : List Char) : Bool :=
  wordBoundary prev (headChar rest) &&
  narrativeVerbs.any (fun v =>
    match ciDropWord v rest with
    | some r => bAfterOk r
    | none => false)

/-- The lazy `.*?` of the `Subject meets with` pattern: the lookahead is
checked before each character is consumed (the group may be empty). -/
def lazySMW (prev : Option Char) : List Char → Option (List Char)
  | [] => if verbAhead prev [] then some [] else none
  | c :: r =>
    if verbAhead prev (c :: r) then some (c :: r)
    else if c = '\n' then none
    else lazySMW (some c) r

/-- `re.sub(r"^\s*Subject meets with\b.*?(?=\b(Presents|...)\b)", "", s, flags=re.I)`
— anchored, so at most one replacement, deleting the matched span. -/
def removeSubjectMeets (s : List Char) : List Char :=
  match ciDropWord "subject meets with".data (pySpan isPySpace s).2 with
  | some rest0 =>
    if wordBoundary (some 'h') (headChar rest0) then
      match lazySMW (some 'h') rest0 with
      | some suffix => suffix
      | none => s
    else s
  | none => s

/-- `re.sub(r"\s+\.\s+", " ", s)`: global replacement, scanning left to
right and resuming after each matched span. -/
def subDotSpaceF : Nat → List Char → List Char
  | 0, l => l
  | _ + 1, [] => []
  | fuel + 1, c :: r =>
    let w1 := pySpan isPySpace (c :: r)
    if w1.1 ≠ [] then
      match w1.2 with
      | '.' :: r2 =>
        let w2 := pySpan isPySpace r2
        if w2.1 ≠ [] then ' ' :: subDotSpaceF fuel w2.2
        else c :: subDotSpaceF fuel r
      | _ => c :: subDotSpaceF fuel r
    else c :: subDotSpaceF fuel r

def subDotSpace (l : List Char) : List Char :=
  subDotSpaceF (l.length + 1) l

/-- `peel_embedded_fields` from `11_extract_2024.py`:
returns `(clean_description, prereq, level_term, units)`. -/
def peel_embedded_fields (text : List Char) :
    List Char × Option (List Char) × Option (List Char) × Option (List Char) :=
  let s0 := clean_text text
  let r1 := peelStep1 s0
  let r2 := peelStep2 r1.1
  let r3 := peelStep3 r2.1
  let s4 := clean_text (removeSubjectMeets r3.1)
  let s5 := clean_text (subDotSpace s4)
  (s5, r1.2, r2.2, r3.2)

example :
    peel_embedded_fields "Introduces things. 12 units".data =
      ("Introduces things.".data, none, none, some "12 units".data) := by decide
example :
    peel_embedded_fields "Prereq: ABC".data = ("".data, some "ABC".data, none, none) := by
  decide
example :
    peel_embedded_fields "Prereq: ".data = ("Prereq:".data, none, none, none) := by decide
example :
    peel_embedded_fields "No fields at all here".data =
      ("No fields at all here".data, none, none, none) := by decide
example :
    peel_embedded_fields "U (Fall)x after".data =
      ("x after".data, none, some "U (Fall)".data, none) := by decide
example :
    peel_embedded_fields "Explores ideas . Prereq: None 3-0-9 units".data =
      ("Explores ideas .".data, some "None".data, none, some "3-0-9 units".data) := by decide
example :
    peel_embedded_fields "Covers stuff. Prereq: 6.100 and 6.200 3-2-7 units G (Fall)x end".data =
      ("Covers stuff. x end".data, some "6.100 and 6.200".data, some "G (Fall)".data,
       some "3-2-7 units".data) := by decide
example :
    peel_embedded_fields
      "Subject meets with 6.9000 Examines policy. prereq: permission of instructor U (Spring)x 2-0-4 UNITS".data =
      ("Examines policy. x".data, some "permission of instructor".data,
       some "U (Spring)".data, some "2-0-4 UNITS".data) := by decide

/-! ## Claim theorems -/

/-- C1: evaluation of `peel_embedded_fields` on the end-to-end scenario B
body text.  The claim (and §8 of the spec) expects
`level_term = "U (Fall, Spring)"`, but the code returns `none` for the
level/term and leaves `"U (Fall, Spring)"` inside the description: the
pattern `\b([UG])\s*\(([^)]+)\)\b` ends with a word-boundary assertion
right after `)`, which fails whenever the closing parenthesis is
followed by a space or the end of the string — including the very
examples `"U (Spring)"` / `"G (Fall, Spring)"` given in the code's own
comment.  The other three expectations of the claim (prereq, units, and
the description beginning at "Presents an introduction.") do hold. -/
theorem C1_peel_scenarioB_eval :
    peel_embedded_fields
      "Subject meets with 6.100A Presents an introduction. Prereq: None U (Fall, Spring) 12 units".data =
      ("Presents an introduction. U (Fall, Spring)".data,
       some "None".data, none, some "12 units".data) := by
  decide

/-- C9: `parse_credits` always returns either `(none, none)` or a pair
of numeric values with the minimum not above the maximum; one-sided
`none` never occurs. -/
theorem C9_parse_credits_shape :
    ∀ c : Option (List Char),
      parse_credits c = (none, none) ∨
      ∃ lo hi : ℚ, parse_credits c = (some lo, some hi) ∧ lo ≤ hi := by
  intro c
  match c with
  | none => exact Or.inl rfl
  | some raw =>
    simp only [parse_credits]
    split
    · exact Or.inl rfl
    · split
      · exact Or.inl rfl
      · exact Or.inr ⟨_, _, rfl, le_refl _⟩
      · split
        · exact Or.inr ⟨_, _, rfl, min_le_max⟩
        · exact Or.inr ⟨_, _, rfl, le_refl _⟩

/-- C7: the per-page OCR fallback decision.  A page whose normalized
text has at least `MIN_TEXT_CHARS_BEFORE_OCR` non-whitespace characters
is kept unchanged; below the threshold the engine substitutes the
re-normalized output of the OCR collaborator for that page index; and
when the collaborator is unavailable (`none`) the low-density
normalized text is kept as-is (the Python code prints a warning), with
the loop total on every input. -/
theorem C7_ocr_fallback_selection :
    ∀ (ocr : Option (Nat → List Char)) (f : Nat → List Char) (idx : Nat) (txt : List Char),
      (MIN_TEXT_CHARS_BEFORE_OCR ≤ countNonWs (normalize_extracted_text txt) →
        ocrFallbackPage ocr idx txt = normalize_extracted_text txt) ∧
      (countNonWs (normalize_extracted_text txt) < MIN_TEXT_CHARS_BEFORE_OCR →
        ocrFallbackPage (some f) idx txt = normalize_extracted_text (f idx)) ∧
      (countNonWs (normalize_extracted_text txt) < MIN_TEXT_CHARS_BEFORE_OCR →
        ocrFallbackPage none idx txt = normalize_extracted_text txt) := by
  intro ocr f idx txt
  refine ⟨fun h => ?_, fun h => ?_, fun h => ?_⟩
  · simp [ocrFallbackPage, if_pos h]
  · simp [ocrFallbackPage, if_neg (Nat.not_le_of_lt h)]
  · simp [ocrFallbackPage, if_neg (Nat.not_le_of_lt h)]

theorem C7_witness :
    ocrFallbackPage none 0 "ab".data = normalize_extracted_text "ab".data ∧
    ocrFallbackPage (some (fun _ => "x y".data)) 0 "ab".data =
      normalize_extracted_text "x y".data ∧
    ocrFallbackPage none 5 (List.replicate 200 'a') =
      normalize_extracted_text (List.replicate 200 'a') := by
  refine ⟨(C7_ocr_fallback_selection none (fun _ => []) 0 "ab".data).2.2 (by decide),
          (C7_ocr_fallback_selection (some (fun _ => "x y".data)) (fun _ => "x y".data) 0
             "ab".data).2.1 (by decide),
          (C7_ocr_fallback_selection none (fun _ => []) 5 (List.replicate 200 'a')).1
             (by decide)⟩

/-- C6: content preceding the first header-matching line of a document
stream is dropped by segmentation: running the machine on a stream with
a header-free prefix removed yields exactly the same records, so none of
those lines is attributed to any block or description. -/
theorem C6_preheader_lines_dropped :
    ∀ (src : List Char) (pre rest : List (List Char × Nat)),
      (∀ lp ∈ pre, courseHeaderMatch lp.1 = none) →
      parseStream src (pre ++ rest) = parseStream src rest := by
  intro src pre rest hpre
  have key : ∀ lp ∈ pre, stepLine src initSeg lp = ([], initSeg) := by
    intro lp hm
    simp [stepLine, hpre lp hm, initSeg]
  unfold parseStream
  induction pre with
  | nil => simp
  | cons lp pre' ih =>
    have h1 : stepLine src initSeg lp = ([], initSeg) := key lp (by simp)
    have ih' := ih (fun x hx => hpre x (by simp [hx])) (fun x hx => key x (by simp [hx]))
    simpa [runLines, h1] using ih'

theorem C6_witness :
    parseStream "01.pdf".data
      ([("Intro text".data, 1), ("more text".data, 1)] ++ [("1.125 Systems".data, 2)]) =
    parseStream "01.pdf".data [("1.125 Systems".data, 2)] :=
  C6_preheader_lines_dropped "01.pdf".data
    [("Intro text".data, 1), ("more text".data, 1)] [("1.125 Systems".data, 2)]
    (by decide)

/-- C3: the three concrete credit round-trips, plus the general rule:
on the cleaned, en-dash-normalized token `t`, a hyphen together with at
least two embedded numbers `a, b` (the first two, in order) yields
`(min a b, max a b)`; exactly one embedded number `v` yields `(v, v)`;
no embedded number yields `(none, none)`, as does an absent token. -/
theorem C3_parse_credits_roundtrip :
    parse_credits (some "1-4 Hours".data) = (some 1, some 4) ∧
    parse_credits (some "4 SH".data) = (some 4, some 4) ∧
    parse_credits none = (none, none) ∧
    (∀ (s : List Char) (n0 n1 : List Char) (rest : List (List Char)),
      findNums (replaceEnDash (clean_ws s)) = n0 :: n1 :: rest →
      (replaceEnDash (clean_ws s)).contains '-' = true →
      parse_credits (some s) =
        (some (min (tokToRat n0) (tokToRat n1)), some (max (tokToRat n0) (tokToRat n1)))) ∧
    (∀ (s : List Char) (n0 : List Char),
      findNums (replaceEnDash (clean_ws s)) = [n0] →
      parse_credits (some s) = (some (tokToRat n0), some (tokToRat n0))) ∧
    (∀ s : List Char,
      findNums (replaceEnDash (clean_ws s)) = [] →
      parse_credits (some s) = (none, none)) := by
  refine ⟨by decide, by decide, rfl, ?_, ?_, ?_⟩
  · intro s n0 n1 rest hfind hdash
    have hs : s ≠ [] := by
      intro h
      rw [h] at hfind
      rw [show findNums (replaceEnDash (clean_ws [])) = [] from rfl] at hfind
      exact List.cons_ne_nil _ _ hfind.symm
    simp only [parse_credits, if_neg hs, hfind, hdash, if_pos]
  · intro s n0 hfind
    have hs : s ≠ [] := by
      intro h
      rw [h] at hfind
      rw [show findNums (replaceEnDash (clean_ws [])) = [] from rfl] at hfind
      exact List.cons_ne_nil _ _ hfind.symm
    simp only [parse_credits, if_neg hs, hfind]
  · intro s hfind
    by_cases hs : s = []
    · simp [parse_credits, hs]
    · simp only [parse_credits, if_neg hs, hfind]

theorem C3_witness :
    parse_credits (some "0-1 Credits".data) = (some 0, some 1) ∧
    parse_credits (some "3 Hours".data) = (some 3, some 3) ∧
    parse_credits (some "TBA".data) = (none, none) := by
  refine ⟨?_, ?_, ?_⟩
  · have h := C3_parse_credits_roundtrip.2.2.2.1 "0-1 Credits".data
      "0".data "1".data [] (by decide) (by decide)
    rw [h]; decide
  · exact C3_parse_credits_roundtrip.2.2.2.2.1 "3 Hours".data "3".data (by decide)
  · exact C3_parse_credits_roundtrip.2.2.2.2.2 "TBA".data (by decide)

/-- The filtered view of `dedupFirstBy`: records whose key is already in
`seen` are gone; otherwise exactly the first input record of each key
survives. -/
theorem dedupFirstBy_filter {α κ : Type} [DecidableEq κ] (key : α → κ)
    (rs : List α) : ∀ (seen : List κ) (k : κ),
    (dedupFirstBy key seen rs).filter (fun r => decide (key r = k)) =
      if k ∈ seen then [] else (rs.filter (fun r => decide (key r = k))).take 1 := by
  induction rs with
  | nil => intro seen k; simp [dedupFirstBy]
  | cons r rest ih =>
    intro seen k
    simp only [dedupFirstBy]
    by_cases hk : key r ∈ seen
    · rw [if_pos hk, ih seen k]
      by_cases hkk : k ∈ seen
      · rw [if_pos hkk, if_pos hkk]
      · rw [if_neg hkk, if_neg hkk]
        have hne : ¬ (key r = k) := fun h => hkk (h ▸ hk)
        simp [List.filter_cons, hne]
    · rw [if_neg hk]
      by_cases hrk : key r = k
      · subst hrk
        rw [if_neg hk]
        simp only [List.filter_cons, decide_eq_true_eq, if_pos rfl]
        rw [ih (key r :: seen) (key r), if_pos (List.mem_cons_self _ _)]
        simp
      · have hP : decide (key r = k) = false := by simp [hrk]
        simp only [List.filter_cons, hP, Bool.false_eq_true, if_false]
        rw [ih (key r :: seen) k]
        by_cases hks : k ∈ seen
        · rw [if_pos hks, if_pos (List.mem_cons_of_mem _ hks)]
        · rw [if_neg hks,
              if_neg (by
                intro hmem
                rcases List.mem_cons.mp hmem with h | h
                · exact hrk h.symm
                · exact hks h)]

/-- C4: for every input sequence and every key, the deduplicated output
restricted to that key is exactly the first input record with that key
(`take 1` of the input restricted to the key) — so each key present in
the input is represented exactly once, by its first occurrence, and no
other records appear. -/
theorem C4_dedup_first_wins :
    ∀ (rs : List MITCourse1996) (k : List Char × List Char),
      (dedupCourses rs).filter (fun r => decide (dedupKey1996 r = k)) =
        (rs.filter (fun r => decide (dedupKey1996 r = k))).take 1 := by
  intro rs k
  have h := dedupFirstBy_filter dedupKey1996 rs [] k
  rw [if_neg (List.not_mem_nil k)] at h
  exact h

/-- The machine never stores a header-matching line in the open block's
body lines. -/
theorem runLines_no_header_in_lines (src : List Char) :
    ∀ (lps : List (List Char × Nat)) (st : SegState),
      (∀ l ∈ st.currentLines, courseHeaderMatch l = none) →
      ∀ l ∈ (runLines src st lps).2.currentLines, courseHeaderMatch l = none := by
  intro lps
  induction lps with
  | nil => intro st hst l hl; exact hst l hl
  | cons lp rest ih =>
    intro st hst
    simp only [runLines]
    apply ih
    intro l hl
    revert hl
    simp only [stepLine]
    cases hm : courseHeaderMatch lp.1 with
    | some g => intro hl; simp at hl
    | none =>
      by_cases hnum : st.currentNum.isSome
      · rw [if_pos hnum]
        intro hl
        simp only [List.mem_append, List.mem_singleton] at hl
        rcases hl with hl | hl
        · exact hst l hl
        · rw [hl]; exact hm
      · rw [if_neg hnum]
        intro hl
        exact hst l hl

/-- C5: a line matching the header grammar always flushes the open
block and starts a fresh one seeded with the captured identifier, the
captured title fragment, the current page index, and an empty body —
so the header line itself is appended nowhere; and along any run from
the initial state, no header-matching line is ever present in the open
block's body lines. -/
theorem C5_header_exclusivity :
    (∀ (src : List Char) (st : SegState) (line : List Char) (p : Nat)
        (g : List Char × List Char),
      courseHeaderMatch line = some g →
      stepLine src st (line, p) =
        ((flushState src st).toList,
         { currentNum := some g.1, currentTitle := some g.2, currentLines := [],
           currentStartPage := some p })) ∧
    (∀ (src : List Char) (lps : List (List Char × Nat)),
      ∀ l ∈ (runLines src initSeg lps).2.currentLines, courseHeaderMatch l = none) := by
  constructor
  · intro src st line p g hm
    simp [stepLine, hm]
  · intro src lps
    exact runLines_no_header_in_lines src lps initSeg (by intro l hl; simp [initSeg] at hl)

/-! ## Newline-run analysis for the blank-line collapse -/

/-- Length of the leading newline run. -/
def nlRun : List Char → Nat
  | [] => 0
  | c :: r => if c = '\n' then nlRun r + 1 else 0

/-- Does the string contain three consecutive newlines anywhere? -/
def hasTripleNl : List Char → Bool
  | [] => false
  | c :: r => (decide (c = '\n') && decide (2 ≤ nlRun r)) || hasTripleNl r

/-- Does the string end with a newline? -/
def lastIsNl : List Char → Bool
  | [] => false
  | [c] => decide (c = '\n')
  | _ :: c :: r => lastIsNl (c :: r)

theorem hasTripleNl_of_nlRun_ge {l : List Char} (h : 3 ≤ nlRun l) :
    hasTripleNl l = true := by
  match l with
  | [] => simp [nlRun] at h
  | c :: r =>
    by_cases hc : c = '\n'
    · simp only [nlRun, if_pos hc] at h
      simp [hasTripleNl, hc, Nat.le_of_succ_le_succ h]
    · simp [nlRun, if_neg hc] at h

theorem nlRun_le_two {l : List Char} (h : hasTripleNl l = false) : nlRun l ≤ 2 := by
  by_contra hgt
  rw [hasTripleNl_of_nlRun_ge (Nat.lt_of_not_le hgt)] at h
  cases h

theorem hasTripleNl_tail {c : Char} {r : List Char}
    (h : hasTripleNl (c :: r) = false) : hasTripleNl r = false := by
  simp only [hasTripleNl, Bool.or_eq_false_iff] at h
  exact h.2

theorem collapseNLGo_id : ∀ (l : List Char) (p : Nat),
    hasTripleNl l = false → p + nlRun l ≤ 2 →
    collapseNLGo l p = List.replicate p '\n' ++ l := by
  intro l
  induction l with
  | nil =>
    intro p _ hp
    simp only [nlRun, Nat.add_zero] at hp
    simp [collapseNLGo, emitNl, Nat.not_le_of_lt (Nat.lt_succ_of_le hp)]
  | cons c r ih =>
    intro p htr hp
    by_cases hc : c = '\n'
    · subst hc
      simp [nlRun] at hp
      have h1 : collapseNLGo ('\n' :: r) p = collapseNLGo r (p + 1) := by
        simp [collapseNLGo]
      rw [h1, ih (p + 1) (hasTripleNl_tail htr) (by omega),
        List.replicate_succ' p '\n']
      simp
    · simp [nlRun, hc] at hp
      have h1 : collapseNLGo (c :: r) p = emitNl p ++ c :: collapseNLGo r 0 := by
        simp [collapseNLGo, hc]
      rw [h1, ih 0 (hasTripleNl_tail htr)
            (by simpa using nlRun_le_two (hasTripleNl_tail htr))]
      rw [emitNl, if_neg (by omega)]
      simp

/-- `collapseNL` leaves a string with no triple-newline run unchanged. -/
theorem collapseNL_id {l : List Char} (h : hasTripleNl l = false) :
    collapseNL l = l := by
  have := collapseNLGo_id l 0 h (by simpa using nlRun_le_two h)
  simpa [collapseNL] using this

theorem hasTripleNl_replicate_prepend {c : Char} {x : List Char} (n : Nat)
    (hn : n ≤ 2) (hc : c ≠ '\n') :
    hasTripleNl (List.replicate n '\n' ++ c :: x) = hasTripleNl (c :: x) := by
  interval_cases n
  · simp
  · simp [hasTripleNl, nlRun, hc]
  · simp [hasTripleNl, nlRun, hc]

theorem hasTripleNl_emitNl_prepend {c : Char} {x : List Char} (p : Nat)
    (hc : c ≠ '\n') :
    hasTripleNl (emitNl p ++ c :: x) = hasTripleNl (c :: x) := by
  by_cases h3 : 3 ≤ p
  · rw [emitNl, if_pos h3]
    rw [show ['\n', '\n'] = List.replicate 2 '\n' from rfl]
    exact hasTripleNl_replicate_prepend 2 (by omega) hc
  · rw [emitNl, if_neg h3]
    exact hasTripleNl_replicate_prepend p (by omega) hc

theorem emitNl_noTriple (p : Nat) : hasTripleNl (emitNl p) = false := by
  by_cases h3 : 3 ≤ p
  · rw [emitNl, if_pos h3]; decide
  · rw [emitNl, if_neg h3]
    interval_cases p <;> decide

/-- The output of the collapse never contains three consecutive
newlines. -/
theorem collapseNLGo_noTriple : ∀ (l : List Char) (p : Nat),
    hasTripleNl (collapseNLGo l p) = false := by
  intro l
  induction l with
  | nil => intro p; simpa [collapseNLGo] using emitNl_noTriple p
  | cons c r ih =>
    intro p
    by_cases hc : c = '\n'
    · simp only [collapseNLGo, if_pos hc]
      exact ih (p + 1)
    · simp only [collapseNLGo, if_neg hc]
      rw [hasTripleNl_emitNl_prepend p hc]
      simp only [hasTripleNl, Bool.or_eq_false_iff]
      exact ⟨by simp [hc], ih 0⟩

theorem collapseNLGo_replicate_absorb : ∀ (n p : Nat) (b : List Char),
    collapseNLGo (List.replicate n '\n' ++ b) p = collapseNLGo b (p + n) := by
  intro n
  induction n with
  | zero => intro p b; simp
  | succ m ih =>
    intro p b
    rw [List.replicate_succ]
    have h1 : collapseNLGo ('\n' :: (List.replicate m '\n' ++ b)) p =
        collapseNLGo (List.replicate m '\n' ++ b) (p + 1) := by
      simp [collapseNLGo]
    rw [List.cons_append, h1, ih (p + 1) b]
    congr 1
    omega

theorem collapseNLGo_long_run (p n : Nat) (b : List Char)
    (h3 : 3 ≤ p + n) (hb : nlRun b = 0) :
    collapseNLGo (List.replicate n '\n' ++ b) p = '\n' :: '\n' :: collapseNLGo b 0 := by
  rw [collapseNLGo_replicate_absorb n p b]
  match b with
  | [] => simp [collapseNLGo, emitNl, h3]
  | c :: r =>
    have hc : ¬ (c = '\n') := by
      intro h
      simp [nlRun, h] at hb
    simp [collapseNLGo, if_neg hc, emitNl, h3]

theorem collapseNLGo_append_block : ∀ (a : List Char) (p : Nat) (s' : List Char),
    a ≠ [] → lastIsNl a = false → hasTripleNl a = false → p + nlRun a ≤ 2 →
    collapseNLGo (a ++ s') p = List.replicate p '\n' ++ a ++ collapseNLGo s' 0 := by
  intro a
  induction a with
  | nil => intro p s' hne; exact absurd rfl hne
  | cons c a' ih =>
    intro p s' _ hlast htr hp
    cases a' with
    | nil =>
      have hc : ¬ (c = '\n') := by simpa [lastIsNl] using hlast
      simp [nlRun, hc] at hp
      have h1 : collapseNLGo (c :: s') p = emitNl p ++ c :: collapseNLGo s' 0 := by
        simp [collapseNLGo, hc]
      rw [List.singleton_append, h1, emitNl, if_neg (by omega)]
      simp
    | cons d a'' =>
      have hlast' : lastIsNl (d :: a'') = false := by simpa [lastIsNl] using hlast
      by_cases hc : c = '\n'
      · subst hc
        simp [nlRun] at hp
        have h1 : collapseNLGo ('\n' :: ((d :: a'') ++ s')) p =
            collapseNLGo ((d :: a'') ++ s') (p + 1) := by
          simp [collapseNLGo]
        rw [List.cons_append, h1,
          ih (p + 1) s' (by simp) hlast' (hasTripleNl_tail htr)
            (by simp only [nlRun]; omega),
          List.replicate_succ' p '\n']
        simp
      · simp [nlRun, hc] at hp
        have h1 : collapseNLGo (c :: ((d :: a'') ++ s')) p =
            emitNl p ++ c :: collapseNLGo ((d :: a'') ++ s') 0 := by
          simp [collapseNLGo, hc]
        rw [List.cons_append, h1,
          ih 0 s' (by simp) hlast' (hasTripleNl_tail htr)
            (by simpa using nlRun_le_two (hasTripleNl_tail htr)),
          emitNl, if_neg (by omega)]
        simp

/-! ## Whitespace shape of `clean_text` output -/

/-- Is the first character whitespace? -/
def headIsWs (l : List Char) : Bool :=
  match l with
  | [] => false
  | c :: _ => isPySpace c

/-- Is the last character non-whitespace (or the string empty)? -/
def noTrailWs : List Char → Bool
  | [] => true
  | [c] => !isPySpace c
  | _ :: c :: r => noTrailWs (c :: r)

/-- No two adjacent whitespace characters anywhere. -/
def noDoubleWs : List Char → Bool
  | [] => true
  | c :: r => !(isPySpace c && headIsWs r) && noDoubleWs r

/-- Every whitespace character is a plain space. -/
def wsOnlySpace (l : List Char) : Bool :=
  l.all (fun c => !isPySpace c || c = ' ')

theorem noTrailWs_tail {c : Char} {r : List Char}
    (h : noTrailWs (c :: r) = true) : noTrailWs r = true := by
  cases r with
  | nil => rfl
  | cons x xs => exact h

theorem noDoubleWs_tail {c : Char} {r : List Char}
    (h : noDoubleWs (c :: r) = true) : noDoubleWs r = true := by
  simp only [noDoubleWs, Bool.and_eq_true] at h
  exact h.2

theorem collapseWsGo_headNot : ∀ l : List Char,
    headIsWs (collapseWsGo true l) = false := by
  intro l
  induction l with
  | nil => rfl
  | cons c r ih =>
    by_cases hc : isPySpace c = true
    · simp [collapseWsGo, hc, ih]
    · simp [collapseWsGo, hc, headIsWs]

theorem collapseWsGo_noDouble : ∀ (l : List Char) (b : Bool),
    noDoubleWs (collapseWsGo b l) = true := by
  intro l
  induction l with
  | nil => intro b; rfl
  | cons c r ih =>
    intro b
    by_cases hc : isPySpace c = true
    · cases b with
      | true => simpa [collapseWsGo, hc] using ih true
      | false =>
        simp only [collapseWsGo, hc, if_true, if_false, Bool.false_eq_true]
        simp only [noDoubleWs, Bool.and_eq_true]
        refine ⟨?_, ih true⟩
        simp [collapseWsGo_headNot r]
    · simp only [collapseWsGo, hc, Bool.false_eq_true, if_false]
      simp only [noDoubleWs, Bool.and_eq_true]
      exact ⟨by simp [hc], ih false⟩

theorem collapseWsGo_wsOnly : ∀ (l : List Char) (b : Bool),
    wsOnlySpace (collapseWsGo b l) = true := by
  intro l
  induction l with
  | nil => intro b; rfl
  | cons c r ih =>
    intro b
    by_cases hc : isPySpace c = true
    · cases b with
      | true => simpa [collapseWsGo, hc] using ih true
      | false =>
        simp only [collapseWsGo, hc, if_true, if_false, Bool.false_eq_true]
        simpa [wsOnlySpace] using ih true
    · simp only [collapseWsGo, hc, Bool.false_eq_true, if_false]
      simp only [wsOnlySpace, List.all_cons, Bool.and_eq_true]
      exact ⟨by simp [hc], ih false⟩

theorem pyRstrip_sublist : ∀ l : List Char, (pyRstrip l).Sublist l := by
  intro l
  induction l with
  | nil => simp [pyRstrip]
  | cons c r ih =>
    cases hr : pyRstrip r with
    | nil =>
      simp only [pyRstrip, hr]
      by_cases hc : isPySpace c = true
      · simp [hc]
      · simp [hc]
    | cons y ys =>
      simp only [pyRstrip, hr]
      exact List.Sublist.cons₂ c (hr ▸ ih)

theorem pyRstrip_noTrail : ∀ l : List Char, noTrailWs (pyRstrip l) = true := by
  intro l
  induction l with
  | nil => rfl
  | cons c r ih =>
    cases hr : pyRstrip r with
    | nil =>
      simp only [pyRstrip, hr]
      by_cases hc : isPySpace c = true
      · simp [hc, noTrailWs]
      · simp [hc, noTrailWs]
    | cons y ys =>
      simp only [pyRstrip, hr]
      show noTrailWs (y :: ys) = true
      exact hr ▸ ih

theorem pyRstrip_head_eq : ∀ (l : List Char) (x : Char) (xs : List Char),
    pyRstrip l = x :: xs → ∃ t, l = x :: t := by
  intro l x xs h
  match l with
  | [] => simp [pyRstrip] at h
  | c :: r =>
    refine ⟨r, ?_⟩
    cases hr : pyRstrip r with
    | nil =>
      simp only [pyRstrip, hr] at h
      by_cases hc : isPySpace c = true
      · rw [if_pos hc] at h; cases h
      · rw [if_neg hc] at h
        cases h
        rfl
    | cons y ys =>
      simp only [pyRstrip, hr] at h
      cases h
      rfl

theorem pyRstrip_noDouble : ∀ l : List Char,
    noDoubleWs l = true → noDoubleWs (pyRstrip l) = true := by
  intro l
  induction l with
  | nil => intro _; rfl
  | cons c r ih =>
    intro h
    have h2 := noDoubleWs_tail h
    cases hr : pyRstrip r with
    | nil =>
      simp only [pyRstrip, hr]
      by_cases hc : isPySpace c = true
      · simp [hc, noDoubleWs]
      · simp [hc, noDoubleWs, headIsWs]
    | cons y ys =>
      simp only [pyRstrip, hr]
      have hd : noDoubleWs (y :: ys) = true := hr ▸ ih h2
      have h1 : (!(isPySpace c && isPySpace y)) = true := by
        rcases pyRstrip_head_eq r y ys hr with ⟨t, ht⟩
        rw [ht] at h
        have e : noDoubleWs (c :: y :: t) =
            ((!(isPySpace c && headIsWs (y :: t))) && noDoubleWs (y :: t)) := rfl
        rw [e, Bool.and_eq_true] at h
        simpa [headIsWs] using h.1
      have e2 : noDoubleWs (c :: y :: ys) =
          ((!(isPySpace c && headIsWs (y :: ys))) && noDoubleWs (y :: ys)) := rfl
      rw [e2, hd, Bool.and_true]
      simpa [headIsWs] using h1

theorem dropWhileWs_headNot : ∀ l : List Char,
    headIsWs (l.dropWhile isPySpace) = false := by
  intro l
  induction l with
  | nil => rfl
  | cons c r ih =>
    by_cases hc : isPySpace c = true
    · simpa [List.dropWhile_cons, hc] using ih
    · simp [List.dropWhile_cons, hc, headIsWs]

theorem dropWhileWs_noTrail : ∀ l : List Char,
    noTrailWs l = true → noTrailWs (l.dropWhile isPySpace) = true := by
  intro l
  induction l with
  | nil => intro _; rfl
  | cons c r ih =>
    intro h
    by_cases hc : isPySpace c = true
    · simpa [List.dropWhile_cons, hc] using ih (noTrailWs_tail h)
    · simpa [List.dropWhile_cons, hc] using h

theorem dropWhileWs_noDouble : ∀ l : List Char,
    noDoubleWs l = true → noDoubleWs (l.dropWhile isPySpace) = true := by
  intro l
  induction l with
  | nil => intro _; rfl
  | cons c r ih =>
    intro h
    by_cases hc : isPySpace c = true
    · simpa [List.dropWhile_cons, hc] using ih (noDoubleWs_tail h)
    · simpa [List.dropWhile_cons, hc] using h

theorem wsOnly_of_sublist {l₁ l₂ : List Char} (hs : l₁.Sublist l₂)
    (h : wsOnlySpace l₂ = true) : wsOnlySpace l₁ = true := by
  simp only [wsOnlySpace, List.all_eq_true] at h ⊢
  intro c hc
  exact h c (hs.subset hc)

theorem clean_text_headNot (s : List Char) : headIsWs (clean_text s) = false :=
  dropWhileWs_headNot _

theorem clean_text_noTrail (s : List Char) : noTrailWs (clean_text s) = true :=
  dropWhileWs_noTrail _ (pyRstrip_noTrail _)

theorem clean_text_noDouble (s : List Char) : noDoubleWs (clean_text s) = true :=
  dropWhileWs_noDouble _ (pyRstrip_noDouble _ (collapseWsGo_noDouble s false))

theorem clean_text_wsOnly (s : List Char) : wsOnlySpace (clean_text s) = true :=
  wsOnly_of_sublist (List.dropWhile_sublist _)
    (wsOnly_of_sublist (pyRstrip_sublist _) (collapseWsGo_wsOnly s false))

/-- C10: the description component of `peel_embedded_fields` — which is
always a `clean_text` output — has no leading whitespace, no trailing
whitespace, no two adjacent whitespace characters, and every whitespace
character in it is a plain space. -/
theorem C10_description_whitespace :
    ∀ text : List Char,
      headIsWs (peel_embedded_fields text).1 = false ∧
      noTrailWs (peel_embedded_fields text).1 = true ∧
      noDoubleWs (peel_embedded_fields text).1 = true ∧
      wsOnlySpace (peel_embedded_fields text).1 = true := by
  intro t
  have hdef : (peel_embedded_fields t).1 =
      clean_text (subDotSpace (clean_text (removeSubjectMeets
        (peelStep3 (peelStep2 (peelStep1 (clean_text t)).1).1).1))) := rfl
  rw [hdef]
  exact ⟨clean_text_headNot _, clean_text_noTrail _, clean_text_noDouble _,
    clean_text_wsOnly _⟩

/-- C8, counterexample to the claim as stated: the input `"x\n\n\ny"`
contains a run of exactly two consecutive blank lines — fewer than
three — yet normalization collapses it to a single blank line, refuting
"runs of fewer than three blank lines are left uncollapsed".  (The code
collapses runs of three or more newline characters, i.e. two or more
blank lines.) -/
theorem C8_counterexample :
    pySplitlines "x\n\n\ny".data = ["x".data, [], [], "y".data] ∧
    normalize_extracted_text "x\n\n\ny".data = "x\n\ny".data ∧
    pySplitlines (normalize_extracted_text "x\n\n\ny".data) = ["x".data, [], "y".data] := by
  decide

/-- C8, amended: in the blank-line collapse step of normalization,
every maximal run of three or more consecutive newline characters
(equivalently, two or more consecutive blank lines) is replaced by
exactly two newlines (one blank line), and a string containing no such
run passes through the step unchanged.  The three conjuncts: the output
never retains a triple-newline run; triple-free strings are fixed
points; and a maximal run of `n ≥ 3` newlines between triple-free
context `a` (not ending in a newline) and `b` (not starting with one)
becomes exactly two newlines. -/
theorem C8_blank_line_collapse :
    (∀ s : List Char, hasTripleNl (collapseNL s) = false) ∧
    (∀ s : List Char, hasTripleNl s = false → collapseNL s = s) ∧
    (∀ (a : List Char) (n : Nat) (b : List Char),
      3 ≤ n → lastIsNl a = false → hasTripleNl a = false → nlRun b = 0 →
      collapseNL (a ++ List.replicate n '\n' ++ b) =
        a ++ '\n' :: '\n' :: collapseNL b) := by
  refine ⟨fun s => collapseNLGo_noTriple s 0, fun s h => collapseNL_id h, ?_⟩
  intro a n b h3 hlast htr hb
  by_cases ha : a = []
  · subst ha
    simp only [List.nil_append]
    show collapseNLGo (List.replicate n '\n' ++ b) 0 = _
    rw [collapseNLGo_long_run 0 n b (by omega) hb]
    rfl
  · show collapseNLGo ((a ++ List.replicate n '\n') ++ b) 0 = _
    rw [List.append_assoc,
      collapseNLGo_append_block a 0 (List.replicate n '\n' ++ b) ha hlast htr
        (by simpa using nlRun_le_two htr),
      collapseNLGo_long_run 0 n b (by omega) hb]
    simp [collapseNL]

theorem C8_witness :
    collapseNL "x\n\ny".data = "x\n\ny".data ∧
    collapseNL ("x".data ++ List.replicate 4 '\n' ++ "y".data) =
      "x".data ++ '\n' :: '\n' :: collapseNL "y".data :=
  ⟨C8_blank_line_collapse.2.1 "x\n\ny".data (by decide),
   C8_blank_line_collapse.2.2 "x".data 4 "y".data (by omega) (by decide) (by decide)
     (by decide)⟩

/-! ## Fixed points of `normalize_extracted_text` -/

/-- All whitespace characters are plain spaces or newlines. -/
def onlyPlainWs (l : List Char) : Bool :=
  l.all (fun c => !isPySpace c || (c = ' ' || c = '\n'))

/-- Does a letter-hyphen-newline-letter junction start here? -/
def hasHyphAt : List Char → Bool
  | a :: '-' :: '\n' :: b :: _ => a.isAlpha && b.isAlpha
  | _ => false

/-- Does the string contain a letter-hyphen-newline-letter junction
anywhere? -/
def hasHyphJoin : List Char → Bool
  | [] => false
  | c :: r => hasHyphAt (c :: r) || hasHyphJoin r

theorem hyphenJoin_id : ∀ l : List Char, hasHyphJoin l = false → hyphenJoin l = l := by
  intro l
  induction l using hyphenJoin.induct with
  | case1 a b r hab ih =>
    intro h
    exfalso
    have e : hasHyphJoin (a :: '-' :: '\n' :: b :: r) =
        (hasHyphAt (a :: '-' :: '\n' :: b :: r) || hasHyphJoin ('-' :: '\n' :: b :: r)) := rfl
    have e2 : hasHyphAt (a :: '-' :: '\n' :: b :: r) = (a.isAlpha && b.isAlpha) := rfl
    rw [e, e2, hab] at h
    simp at h
  | case2 a b r hab ih =>
    intro h
    have e : hasHyphJoin (a :: '-' :: '\n' :: b :: r) =
        (hasHyphAt (a :: '-' :: '\n' :: b :: r) || hasHyphJoin ('-' :: '\n' :: b :: r)) := rfl
    rw [e, Bool.or_eq_false_iff] at h
    rw [hyphenJoin.eq_1, if_neg hab, ih h.2]
  | case3 c r hne ih =>
    intro h
    have e : hasHyphJoin (c :: r) = (hasHyphAt (c :: r) || hasHyphJoin r) := rfl
    rw [e, Bool.or_eq_false_iff] at h
    rw [hyphenJoin.eq_2 c r hne, ih h.2]
  | case4 => intro _; rfl

theorem replaceCR_id : ∀ l : List Char, (∀ c ∈ l, c ≠ '\r') → replaceCR l = l := by
  intro l
  induction l using replaceCR.induct with
  | case1 => intro _; rfl
  | case2 r ih => intro h; exact absurd rfl (h '\r' (by simp))
  | case3 r hne ih => intro h; exact absurd rfl (h '\r' (by simp))
  | case4 c r hne1 hne2 ih =>
    intro h
    rw [replaceCR.eq_4 c r hne1 hne2, ih (fun x hx => h x (List.mem_cons_of_mem c hx))]

/-- `splitlines` restricted to newline separators only (the shape every
string in the fixed-point argument has). -/
def splitNl : List Char → List (List Char)
  | [] => []
  | c :: r => if c = '\n' then [] :: splitNl r else consHead c (splitNl r)

theorem splitNl_cons_ne_nil (c : Char) (r : List Char) : splitNl (c :: r) ≠ [] := by
  simp only [splitNl]
  by_cases hc : c = '\n'
  · rw [if_pos hc]; simp
  · rw [if_neg hc]
    cases hsr : splitNl r with
    | nil => simp [consHead]
    | cons l ls => simp [consHead]

theorem pySplitlines_eq_splitNl : ∀ l : List Char,
    (∀ c ∈ l, isLineSep c = true → c = '\n') → pySplitlines l = splitNl l := by
  intro l
  induction l using pySplitlines.induct with
  | case1 => intro _; rfl
  | case2 r ih =>
    intro h
    exact absurd (h '\r' (by simp) (by decide)) (by decide)
  | case3 c r hne hsep ih =>
    intro h
    have ihr := ih (fun x hx hs => h x (List.mem_cons_of_mem _ hx) hs)
    have hc : c = '\n' := h c (by simp) hsep
    rw [pySplitlines.eq_3 c r hne, if_pos hsep, ihr,
      show splitNl (c :: r) = [] :: splitNl r from by simp [splitNl, hc]]
  | case4 c r hne hnsep ih =>
    intro h
    have ihr := ih (fun x hx hs => h x (List.mem_cons_of_mem _ hx) hs)
    have hcn : ¬ (c = '\n') := fun hceq => hnsep (by rw [hceq]; decide)
    rw [pySplitlines.eq_3 c r hne, if_neg hnsep, ihr,
      show splitNl (c :: r) = consHead c (splitNl r) from by simp [splitNl, hcn]]

theorem joinNL_cons_cons (c : Char) (l : List Char) (ls : List (List Char)) :
    joinNL ((c :: l) :: ls) = c :: joinNL (l :: ls) := by
  cases ls with
  | nil => rfl
  | cons l2 ls2 => rfl

theorem lastIsNl_cons_of_ne (c : Char) {r : List Char} (h : r ≠ []) :
    lastIsNl (c :: r) = lastIsNl r := by
  cases r with
  | nil => exact absurd rfl h
  | cons x xs => rfl

theorem joinNL_splitNl : ∀ y : List Char, lastIsNl y = false → joinNL (splitNl y) = y := by
  intro y
  induction y with
  | nil => intro _; rfl
  | cons c r ih =>
    intro h
    by_cases hc : c = '\n'
    · subst hc
      cases r with
      | nil => simp [lastIsNl] at h
      | cons x xs =>
        have hrne : (x :: xs : List Char) ≠ [] := by simp
        have hlast : lastIsNl (x :: xs) = false := by
          rw [← lastIsNl_cons_of_ne '\n' hrne]; exact h
        rw [show splitNl ('\n' :: x :: xs) = [] :: splitNl (x :: xs) from by
          simp [splitNl]]
        cases hsr : splitNl (x :: xs) with
        | nil => exact absurd hsr (splitNl_cons_ne_nil x xs)
        | cons l0 ls0 =>
          have hj : joinNL (splitNl (x :: xs)) = x :: xs := ih hlast
          rw [hsr] at hj
          have e2 : joinNL ([] :: l0 :: ls0) = '\n' :: joinNL (l0 :: ls0) := rfl
          rw [e2, hj]
    · rw [show splitNl (c :: r) = consHead c (splitNl r) from by simp [splitNl, hc]]
      cases hsr : splitNl r with
      | nil =>
        have hrnil : r = [] := by
          cases r with
          | nil => rfl
          | cons x xs => exact absurd hsr (splitNl_cons_ne_nil x xs)
        subst hrnil
        rfl
      | cons l0 ls0 =>
        have hrne : r ≠ [] := by
          intro hr0
          rw [hr0] at hsr
          exact absurd hsr.symm (List.cons_ne_nil _ _)
        have hlast : lastIsNl r = false := by
          rw [← lastIsNl_cons_of_ne c hrne]; exact h
        rw [show consHead c (l0 :: ls0) = (c :: l0) :: ls0 from rfl, joinNL_cons_cons,
          ← hsr, ih hlast]

theorem map_id_of_all {α : Type} [BEq α] [LawfulBEq α] (f : α → α) :
    ∀ l : List α, l.all (fun x => f x == x) = true → l.map f = l := by
  intro l
  induction l with
  | nil => intro _; rfl
  | cons x xs ih =>
    intro h
    simp only [List.all_cons, Bool.and_eq_true] at h
    simp only [List.map_cons]
    rw [eq_of_beq h.1, ih h.2]

theorem lineSep_isPySpace : ∀ c : Char, isLineSep c = true → isPySpace c = true := by
  intro c h
  simp only [isLineSep, Bool.or_eq_true, decide_eq_true_eq] at h
  rcases h with (((((((((h|h)|h)|h)|h)|h)|h)|h)|h)|h) <;> subst h <;> decide

theorem pyRstrip_length_lt_step (c : Char) (r : List Char)
    (hr : (pyRstrip r).length < r.length) :
    (pyRstrip (c :: r)).length < (c :: r).length := by
  cases hpr : pyRstrip r with
  | nil =>
    rw [hpr] at hr
    simp only [List.length_nil] at hr
    simp only [pyRstrip, hpr]
    by_cases hc : isPySpace c = true
    · rw [if_pos hc]
      simp only [List.length_nil, List.length_cons]
      omega
    · rw [if_neg hc]
      simp only [List.length_cons, List.length_nil]
      omega
  | cons y ys =>
    simp only [pyRstrip, hpr]
    rw [hpr] at hr
    simp only [List.length_cons] at hr ⊢
    omega

theorem pyRstrip_length_lt : ∀ l : List Char,
    lastIsNl l = true → (pyRstrip l).length < l.length := by
  intro l
  induction l with
  | nil => intro h; cases h
  | cons c r ih =>
    intro h
    cases r with
    | nil =>
      have hc : c = '\n' := by simpa [lastIsNl] using h
      subst hc
      decide
    | cons x xs =>
      exact pyRstrip_length_lt_step c (x :: xs) (ih h)

theorem lastIsNl_false_of_strip : ∀ y : List Char, pyStrip y = y → lastIsNl y = false := by
  intro y h
  cases hny : lastIsNl y with
  | false => rfl
  | true =>
    exfalso
    have hl := pyRstrip_length_lt y hny
    have hle : (pyStrip y).length ≤ (pyRstrip y).length :=
      (List.dropWhile_sublist isPySpace).length_le
    rw [h] at hle
    omega

/-- Over the stripped joined lines each line is right-trimmed. -/
def linesRstripped (y : List Char) : Bool :=
  (pySplitlines y).all (fun l => pyRstrip l == l)

/-- A string already in the normal form that `normalize_extracted_text`
produces on well-behaved input: only space/newline whitespace, no
letter-hyphen-newline-letter junction, no triple-newline run,
right-trimmed lines, and no leading/trailing whitespace. -/
def fullyNormalized (y : List Char) : Bool :=
  onlyPlainWs y && !hasHyphJoin y && !hasTripleNl y && linesRstripped y &&
  (pyStrip y == y)

theorem normalize_fixed : ∀ y : List Char,
    fullyNormalized y = true → normalize_extracted_text y = y := by
  intro y h
  simp only [fullyNormalized, Bool.and_eq_true, Bool.not_eq_true'] at h
  obtain ⟨⟨⟨⟨h1, h2⟩, h3⟩, h4⟩, h5⟩ := h
  have h5' : pyStrip y = y := eq_of_beq h5
  by_cases hy : y = []
  · rw [hy]; rfl
  · have hplain : ∀ c ∈ y, isPySpace c = true → (c = ' ' ∨ c = '\n') := by
      intro c hc hw
      have hall := (List.all_eq_true.mp h1) c hc
      simp only [Bool.or_eq_true, Bool.not_eq_true', decide_eq_true_eq] at hall
      rcases hall with hh | hh
      · rw [hw] at hh; cases hh
      · exact hh
    have hnr : ∀ c ∈ y, c ≠ '\r' := by
      intro c hc hcr
      subst hcr
      rcases hplain '\r' hc (by decide) with hh | hh
      · exact absurd hh (by decide)
      · exact absurd hh (by decide)
    have hsep : ∀ c ∈ y, isLineSep c = true → c = '\n' := by
      intro c hc hs
      rcases hplain c hc (lineSep_isPySpace c hs) with hh | hh
      · subst hh; exact absurd hs (by decide)
      · exact hh
    rw [normalize_extracted_text, if_neg hy, replaceCR_id y hnr, hyphenJoin_id y h2,
      collapseNL_id h3,
      map_id_of_all pyRstrip (pySplitlines y) h4,
      pySplitlines_eq_splitNl y hsep,
      joinNL_splitNl y (lastIsNl_false_of_strip y h5')]
    exact h5'

/-- C2, counterexample to idempotence as claimed: right-trimming the
lines of `"a- \nb"` exposes a fresh hyphen-newline junction, so a second
normalization pass joins it. -/
theorem C2_counterexample :
    normalize_extracted_text (normalize_extracted_text "a- \nb".data) ≠
      normalize_extracted_text "a- \nb".data := by
  decide

/-- C2, amended: `normalize_extracted_text` is not idempotent in
general (see the counterexample); it is idempotent at every input whose
normalized form is already fully normalized — contains no
letter-hyphen-newline-letter junction, no run of three or more
newlines, only space/newline whitespace, right-trimmed lines, and no
leading or trailing whitespace — because such strings are fixed
points. -/
theorem C2_normalize_idempotent_on_normalized :
    ∀ x : List Char,
      fullyNormalized (normalize_extracted_text x) = true →
      normalize_extracted_text (normalize_extracted_text x) =
        normalize_extracted_text x :=
  fun _ h => normalize_fixed _ h

theorem C2_witness :
    fullyNormalized (normalize_extracted_text "ab cd\nef".data) = true ∧
    normalize_extracted_text (normalize_extracted_text "ab cd\nef".data) =
      normalize_extracted_text "ab cd\nef".data :=
  ⟨by decide, C2_normalize_idempotent_on_normalized "ab cd\nef".data (by decide)⟩

theorem C5_witness :
    stepLine "01.pdf".data initSeg ("1.125 Architecting Software Systems".data, 3) =
      ([], { currentNum := some "1.125".data,
             currentTitle := some "Architecting Software Systems".data,
             currentLines := [], currentStartPage := some 3 }) := by
  rw [C5_header_exclusivity.1 "01.pdf".data initSeg
        "1.125 Architecting Software Systems".data 3
        ("1.125".data, "Architecting Software Systems".data) (by decide)]
  decide

end Catalog
